import Mathlib

/-!
Shallow embedding of the `llm-queue-dispatcher` TypeScript library, together
with theorems settling the specification claims against it.

Sources embedded here:
  * `src/types/index.ts`              (Priority enum, request / message records)
  * `src/utils/message-score-calculator.ts`
  * `src/utils/priority-buffer.ts`
  * `src/storage/in-memory.ts`        (InMemoryStorage)
  * `src/llm-queue-dispatcher.ts`     (LLMQueueDispatcher dequeue pipeline)

Modelling conventions:
  * JavaScript numbers are modelled as `ℚ` (scores, token counts) or `ℤ`
    (timestamps in milliseconds, sizes/limits); `receiveCount` is a `ℕ`.
  * `Date.now()` is passed explicitly as a `now : ℤ` parameter.
  * JavaScript `a || b` on an optional numeric config field is `jsOrZ`/`jsOrQ`
    below: `b` is used when the field is absent (`undefined`) or equals `0`
    (both are falsy in JS).
  * `Map` objects are association lists in insertion order; `Map.set`
    replaces an existing key in place, `Map.delete` removes it.
  * Thrown exceptions are `Except String`; a `try { … } catch { … }` block is
    an explicit `match` on the `Except` value.  State mutated before a throw
    is kept, so fallible operations return their `Except` result together
    with the updated state.
  * `Math.pow(s, 0.5)` (used for the URGENT wait-time transform) is
    `Real.sqrt`; that single definition lives in `ℝ`, everything else is
    executable over `ℚ`/`ℤ`.
  * The metrics collector (`recordEnqueue` / `recordDequeue` / …) and the
    human-readable `explainSelection` string are purely observational: no
    claim mentions them, and they influence neither the queue state nor the
    selection result, so they are not carried in the dispatcher state.
-/

namespace LLMQueue

/-- Truthiness of an optional JS number: `undefined` and `0` are falsy. -/
def truthyZ : Option ℤ → Bool
  | none => false
  | some v => v ≠ 0

/-- `cfg || default` for an optional integer-valued config field
(`undefined` and `0` select the default). -/
def jsOrZ (v : Option ℤ) (d : ℤ) : ℤ :=
  match v with
  | none => d
  | some x => if x = 0 then d else x

/-- `cfg || default` for an optional rational-valued config field. -/
def jsOrQ (v : Option ℚ) (d : ℚ) : ℚ :=
  match v with
  | none => d
  | some x => if x = 0 then d else x

/-- `Priority` enum from `src/types/index.ts`:
URGENT = 0, HIGH = 1, NORMAL = 2, LOW = 3 (lower number = higher priority). -/
inductive Priority where
  | URGENT
  | HIGH
  | NORMAL
  | LOW
deriving DecidableEq, Repr

/-- Numeric value of the `Priority` enum member. -/
def Priority.val : Priority → ℤ
  | .URGENT => 0
  | .HIGH => 1
  | .NORMAL => 2
  | .LOW => 3

/-- `tokenInfo` of an `LLMRequest`. -/
structure TokenInfo where
  estimated : ℚ
deriving DecidableEq, Repr

/-- `LLMRequest` (the fields the embedded code reads). -/
structure LLMRequest where
  id : String
  priority : Priority
  tokenInfo : TokenInfo
  expectedProcessingTime : Option ℚ
deriving DecidableEq, Repr

/-- `QueueMessage.attributes` from `src/types/index.ts`. -/
structure MessageAttributes where
  messageId : String
  receiptHandle : String
  enqueuedAt : ℤ
  receiveCount : ℕ
  firstReceivedAt : Option ℤ
deriving DecidableEq, Repr

/-- `QueueMessage<LLMRequest>`: the storage-assigned envelope. -/
structure QueueMsg where
  id : String
  payload : LLMRequest
  attributes : MessageAttributes
deriving DecidableEq, Repr

end LLMQueue

namespace LLMQueue

/-! ### MessageScoreCalculator (`src/utils/message-score-calculator.ts`)

Each private sub-score method is translated as a function; JS numbers become
`ℚ`.  The URGENT branch of `calculateWaitTimeScore` applies
`Math.pow(score, 0.5)`, i.e. the real square root, so that one function
returns an `ℝ`. -/

/-- `calculatePriorityScore`: table lookup. -/
def calculatePriorityScore : Priority → ℚ
  | .URGENT => 1
  | .HIGH => 7/10
  | .NORMAL => 2/5
  | .LOW => 1/10

/-- `calculateEfficiencyScore(estimatedTokens, availableTPM, _tpmLimit)`. -/
def calculateEfficiencyScore (estimatedTokens availableTPM : ℚ) : ℚ :=
  if availableTPM ≤ 0 then 0
  else
    let utilization := estimatedTokens / availableTPM
    if 7/10 ≤ utilization ∧ utilization ≤ 9/10 then 1
    else if 9/10 < utilization ∧ utilization ≤ 1 then 9/10
    else if 1 < utilization then 0
    else utilization / (7/10)

/-- `maxWaitTimes` table of `calculateWaitTimeScore` (milliseconds). -/
def maxWaitTime : Priority → ℚ
  | .URGENT => 10 * 1000
  | .HIGH => 30 * 1000
  | .NORMAL => 60 * 1000
  | .LOW => 300 * 1000

/-- The `Math.min(waitTimeMs / maxWait, 1.0)` part of `calculateWaitTimeScore`. -/
def waitTimeBase (waitTimeMs : ℚ) (priority : Priority) : ℚ :=
  min (waitTimeMs / maxWaitTime priority) 1

/-- `calculateWaitTimeScore(waitTimeMs, priority)`; the URGENT branch applies
`Math.pow(score, 0.5) = √score`. -/
noncomputable def calculateWaitTimeScore (waitTimeMs : ℚ) (priority : Priority) : ℝ :=
  if priority = .URGENT then Real.sqrt (waitTimeBase waitTimeMs priority)
  else (waitTimeBase waitTimeMs priority : ℝ)

/-- `calculateRetryPenalty(receiveCount)`. -/
def calculateRetryPenalty (receiveCount : ℕ) : ℚ :=
  if receiveCount = 0 then 1
  else max (1/10) ((7/10) ^ receiveCount)

/-- `calculateTokenFitScore(estimatedTokens, availableTPM)`. -/
def calculateTokenFitScore (estimatedTokens availableTPM : ℚ) : ℚ :=
  if availableTPM ≤ 0 then 0
  else
    let ratio := estimatedTokens / availableTPM
    if ratio < 1/10 then ratio * 10
    else if 1/10 ≤ ratio ∧ ratio ≤ 1/2 then 1
    else if 1/2 < ratio ∧ ratio ≤ 1 then 1 - ((ratio - 1/2) * (2/5))
    else 0

/-- `normalizeProcessingTime(timeMs)`. -/
def normalizeProcessingTime (timeMs : ℚ) : ℚ :=
  if timeMs ≤ 1000 then 1
  else if timeMs ≤ 5000 then 1 - ((timeMs - 1000) / 4000 * (3/10))
  else if timeMs ≤ 30000 then 7/10 - ((timeMs - 5000) / 25000 * (3/5))
  else 1/10

/-- `calculateProcessingTimeScore(estimatedTokens, expectedProcessingTimeMs?)`:
`!expectedProcessingTimeMs` (absent or `0`) selects the estimate
`estimatedTokens * 10`. -/
def calculateProcessingTimeScore (estimatedTokens : ℚ)
    (expectedProcessingTimeMs : Option ℚ) : ℚ :=
  match expectedProcessingTimeMs with
  | none => normalizeProcessingTime (estimatedTokens * 10)
  | some t => if t = 0 then normalizeProcessingTime (estimatedTokens * 10)
              else normalizeProcessingTime t

end LLMQueue

namespace LLMQueue

/-- `normalizeProcessingTime` always lands in `[0, 1]`. -/
theorem normalizeProcessingTime_mem (t : ℚ) :
    0 ≤ normalizeProcessingTime t ∧ normalizeProcessingTime t ≤ 1 := by
  unfold normalizeProcessingTime
  split_ifs with h1 h2 h3 <;> constructor <;> linarith

/-- `calculateRetryPenalty` never exceeds `1`. -/
theorem calculateRetryPenalty_le_one (k : ℕ) : calculateRetryPenalty k ≤ 1 := by
  unfold calculateRetryPenalty
  split_ifs with h
  · exact le_refl 1
  · exact max_le (by norm_num) (pow_le_one₀ (by norm_num) (by norm_num))

end LLMQueue

namespace LLMQueue

/-- C8: for every message whose `tokenInfo.estimated` is positive and whose
`enqueuedAt` is not later than the scoring context's `currentTime`, each of
the six component sub-scores computed by `calculateScore` (priority,
efficiency, waitTime, retry, tokenFit, processingTime — taken before
multiplication by its weight) lies in the closed interval `[0, 1]`. -/
theorem C8_subscores_unit_interval
    (p : Priority) (est avail : ℚ) (expected : Option ℚ) (rc : ℕ) (enq now : ℤ)
    (hest : 0 < est) (henq : enq ≤ now) :
    (0 ≤ calculatePriorityScore p ∧ calculatePriorityScore p ≤ 1) ∧
    (0 ≤ calculateEfficiencyScore est avail ∧ calculateEfficiencyScore est avail ≤ 1) ∧
    ((0 : ℝ) ≤ calculateWaitTimeScore ((now - enq : ℤ) : ℚ) p ∧
      calculateWaitTimeScore ((now - enq : ℤ) : ℚ) p ≤ 1) ∧
    (0 ≤ calculateRetryPenalty rc ∧ calculateRetryPenalty rc ≤ 1) ∧
    (0 ≤ calculateTokenFitScore est avail ∧ calculateTokenFitScore est avail ≤ 1) ∧
    (0 ≤ calculateProcessingTimeScore est expected ∧
      calculateProcessingTimeScore est expected ≤ 1) := by
  refine ⟨?_, ?_, ?_, ?_, ?_, ?_⟩
  · cases p <;> simp [calculatePriorityScore] <;> norm_num
  · unfold calculateEfficiencyScore
    dsimp only
    split_ifs with h0 h1 h2 h3
    · norm_num
    · norm_num
    · norm_num
    · norm_num
    · push_neg at h0 h1 h2 h3
      have hu : 0 < est / avail := div_pos hest h0
      have hlt : est / avail < 7/10 := by
        by_contra hge
        push_neg at hge
        exact absurd (h2 (h1 hge)) (not_lt.mpr h3)
      constructor
      · positivity
      · rw [div_le_one (by norm_num)]
        linarith
  · have hw : (0 : ℚ) ≤ ((now - enq : ℤ) : ℚ) := by
      have : (0 : ℤ) ≤ now - enq := by omega
      exact_mod_cast this
    have hmax : 0 < maxWaitTime p := by cases p <;> norm_num [maxWaitTime]
    have hbase0 : 0 ≤ waitTimeBase ((now - enq : ℤ) : ℚ) p := by
      unfold waitTimeBase
      exact le_min (by positivity) (by norm_num)
    have hbase1 : waitTimeBase ((now - enq : ℤ) : ℚ) p ≤ 1 := min_le_right _ _
    unfold calculateWaitTimeScore
    split_ifs with hp
    · refine ⟨Real.sqrt_nonneg _, ?_⟩
      exact Real.sqrt_le_one.mpr (by exact_mod_cast hbase1)
    · constructor
      · exact_mod_cast hbase0
      · exact_mod_cast hbase1
  · refine ⟨?_, calculateRetryPenalty_le_one rc⟩
    unfold calculateRetryPenalty
    split_ifs with h
    · norm_num
    · exact le_trans (by norm_num) (le_max_left _ _)
  · unfold calculateTokenFitScore
    dsimp only
    split_ifs with h0 h1 h2 h3
    · norm_num
    · have hr : 0 < est / avail := div_pos hest (by push_neg at h0; exact h0)
      constructor
      · positivity
      · linarith
    · norm_num
    · obtain ⟨ha, hb⟩ := h3
      constructor
      · linarith
      · linarith
    · norm_num
  · cases expected with
    | none => exact normalizeProcessingTime_mem _
    | some t =>
      simp only [calculateProcessingTimeScore]
      split_ifs with h
      · exact normalizeProcessingTime_mem _
      · exact normalizeProcessingTime_mem _

end LLMQueue

namespace LLMQueue

/-- Witness for C8 at a concrete input (`NORMAL`, 100 estimated tokens,
1000 available TPM, no expected processing time, receive count 2,
enqueued at 0 and scored at 30000). -/
theorem C8_subscores_unit_interval_witness :
    (0 : ℚ) < 100 ∧ (0 : ℤ) ≤ 30000 ∧
    ((0 ≤ calculatePriorityScore .NORMAL ∧ calculatePriorityScore .NORMAL ≤ 1) ∧
     (0 ≤ calculateEfficiencyScore 100 1000 ∧ calculateEfficiencyScore 100 1000 ≤ 1) ∧
     ((0 : ℝ) ≤ calculateWaitTimeScore ((30000 - 0 : ℤ) : ℚ) .NORMAL ∧
       calculateWaitTimeScore ((30000 - 0 : ℤ) : ℚ) .NORMAL ≤ 1) ∧
     (0 ≤ calculateRetryPenalty 2 ∧ calculateRetryPenalty 2 ≤ 1) ∧
     (0 ≤ calculateTokenFitScore 100 1000 ∧ calculateTokenFitScore 100 1000 ≤ 1) ∧
     (0 ≤ calculateProcessingTimeScore 100 none ∧
       calculateProcessingTimeScore 100 none ≤ 1)) :=
  ⟨by decide, by decide,
    C8_subscores_unit_interval .NORMAL 100 1000 none 2 0 30000 (by decide) (by decide)⟩

/-- C9: the retry penalty equals `1` at receive count `0` and
`max(0.1, 0.7 ^ receiveCount)` for every receive count `≥ 1`; it is
monotonically non-increasing in the receive count and never falls
below `0.1`. -/
theorem C9_retryPenalty (m n : ℕ) (hmn : m ≤ n) :
    calculateRetryPenalty 0 = 1 ∧
    (∀ k, 1 ≤ k → calculateRetryPenalty k = max (1/10) ((7/10) ^ k)) ∧
    calculateRetryPenalty n ≤ calculateRetryPenalty m ∧
    (∀ k, 1/10 ≤ calculateRetryPenalty k) := by
  refine ⟨rfl, ?_, ?_, ?_⟩
  · intro k hk
    unfold calculateRetryPenalty
    rw [if_neg (by omega)]
  · cases m with
    | zero => exact le_trans (calculateRetryPenalty_le_one n) (le_of_eq rfl)
    | succ m' =>
      have hn : n ≠ 0 := by omega
      unfold calculateRetryPenalty
      rw [if_neg hn, if_neg (Nat.succ_ne_zero m')]
      exact max_le_max (le_refl _)
        (pow_le_pow_of_le_one (by norm_num) (by norm_num) hmn)
  · intro k
    unfold calculateRetryPenalty
    split_ifs with h
    · norm_num
    · exact le_max_left _ _

/-- Witness for C9 at `m = 1`, `n = 3`. -/
theorem C9_retryPenalty_witness :
    (1 : ℕ) ≤ 3 ∧
    (calculateRetryPenalty 0 = 1 ∧
     (∀ k, 1 ≤ k → calculateRetryPenalty k = max (1/10) ((7/10) ^ k)) ∧
     calculateRetryPenalty 3 ≤ calculateRetryPenalty 1 ∧
     (∀ k, 1/10 ≤ calculateRetryPenalty k)) :=
  ⟨by decide, C9_retryPenalty 1 3 (by decide)⟩

end LLMQueue

namespace LLMQueue

/-! ### PriorityBuffer (`src/utils/priority-buffer.ts`)

`BufferItem` keeps message, priority and optional score.  The JS array sort
uses the comparator `a.priority - b.priority` (stable, ascending numeric
priority), rendered as a stable merge sort on `priority.val`. -/

/-- `BufferItem<T>` of `priority-buffer.ts` (at `T = LLMRequest`). -/
structure BufferItem where
  message : QueueMsg
  priority : Priority
  score : Option ℚ
deriving DecidableEq, Repr

/-- `PriorityBuffer<T>` state: backing array plus the `maxSize` bound. -/
structure PriorityBuffer where
  buffer : List BufferItem
  maxSize : ℤ
deriving DecidableEq, Repr

/-- The scan loop of `findLowestPriorityIndex`: carries the running
`(lowestIndex, lowestPriority)` pair and the index of the list head;
updates only on a strictly larger priority value. -/
def findLowestAux : List BufferItem → ℕ → ℤ → ℕ → ℕ × ℤ
  | [], bi, bp, _ => (bi, bp)
  | x :: xs, bi, bp, i =>
    if bp < x.priority.val then findLowestAux xs i x.priority.val (i + 1)
    else findLowestAux xs bi bp (i + 1)

/-- `findLowestPriorityIndex`: `-1` (here `none`) on an empty buffer, else
the first index holding the numerically largest (= lowest) priority. -/
def findLowestPriorityIndex (l : List BufferItem) : Option ℕ :=
  match l with
  | [] => none
  | x :: xs => some (findLowestAux xs 0 x.priority.val 1).1

/-- One step of the stable ascending sort: insert `x` (a later element)
behind every strictly smaller priority value and in front of equal ones. -/
def insertSorted (x : BufferItem) : List BufferItem → List BufferItem
  | [] => [x]
  | y :: ys =>
    if y.priority.val < x.priority.val then y :: insertSorted x ys
    else x :: y :: ys

/-- `sortBuffer`: stable ascending sort by the comparator
`a.priority - b.priority` (JS `Array.prototype.sort` is stable), rendered as
a structurally recursive stable insertion sort. -/
def sortBuffer : List BufferItem → List BufferItem
  | [] => []
  | x :: xs => insertSorted x (sortBuffer xs)

/-- `PriorityBuffer.add(message, priority, score?)`.  The
`buffer[lowestIndex]? = none` branch is unreachable (the index returned by
`findLowestPriorityIndex` is always in range) and mirrors the non-null
assertion `this.buffer[lowestIndex]!` of the source. -/
def PriorityBuffer.add (b : PriorityBuffer) (message : QueueMsg)
    (priority : Priority) (score : Option ℚ) : PriorityBuffer × Bool :=
  if (b.buffer.length : ℤ) ≥ b.maxSize then
    match findLowestPriorityIndex b.buffer with
    | none => (b, false)
    | some lowestIndex =>
      match b.buffer[lowestIndex]? with
      | none => (b, false)
      | some item =>
        if priority.val - item.priority.val < 0 then
          ({ b with
             buffer := sortBuffer
               ((b.buffer.eraseIdx lowestIndex).concat ⟨message, priority, score⟩) },
           true)
        else (b, false)
  else
    ({ b with buffer := sortBuffer (b.buffer.concat ⟨message, priority, score⟩) }, true)

/-- `PriorityBuffer.remove(message)`: drop the first entry whose message id
matches. -/
def PriorityBuffer.removeMsg (b : PriorityBuffer) (message : QueueMsg) :
    PriorityBuffer × Bool :=
  match b.buffer.findIdx? (fun item => item.message.id == message.id) with
  | some index => ({ b with buffer := b.buffer.eraseIdx index }, true)
  | none => (b, false)

/-- JS `array.slice(0, endIdx)` (a negative end counts from the end). -/
def jsSliceTo (endIdx : ℤ) (l : List α) : List α :=
  if endIdx < 0 then l.take ((l.length : ℤ) + endIdx).toNat else l.take endIdx.toNat

/-- `PriorityBuffer.peekByPriority(limit?)`: `limit || buffer.length` entries
from the front of the priority-sorted array. -/
def PriorityBuffer.peekByPriority (b : PriorityBuffer) (limit : Option ℤ) :
    List QueueMsg :=
  (jsSliceTo (jsOrZ limit (b.buffer.length : ℤ)) b.buffer).map (fun item => item.message)

/-- `PriorityBuffer.size()`. -/
def PriorityBuffer.size (b : PriorityBuffer) : ℕ := b.buffer.length

/-- `PriorityBuffer.getAll()`. -/
def PriorityBuffer.getAll (b : PriorityBuffer) : List QueueMsg :=
  b.buffer.map (fun item => item.message)

/-- `PriorityBuffer.clear()`. -/
def PriorityBuffer.clear (b : PriorityBuffer) : PriorityBuffer :=
  { b with buffer := [] }

end LLMQueue

namespace LLMQueue

/-- Invariant of the `findLowestPriorityIndex` scan: the resulting priority
dominates the accumulator and every scanned entry, and the resulting index
is either the accumulator's or points (relative to the offset `i`) at an
entry with that priority. -/
theorem findLowestAux_spec (xs : List BufferItem) : ∀ (bi : ℕ) (bp : ℤ) (i : ℕ),
    bp ≤ (findLowestAux xs bi bp i).2 ∧
    (∀ x ∈ xs, x.priority.val ≤ (findLowestAux xs bi bp i).2) ∧
    (findLowestAux xs bi bp i = (bi, bp) ∨
      ∃ j x, xs[j]? = some x ∧ (findLowestAux xs bi bp i).1 = i + j ∧
        (findLowestAux xs bi bp i).2 = x.priority.val) := by
  induction xs with
  | nil =>
    intro bi bp i
    exact ⟨le_refl _, (by intro x hx; cases hx), Or.inl rfl⟩
  | cons x xs ih =>
    intro bi bp i
    have hstep : findLowestAux (x :: xs) bi bp i =
        if bp < x.priority.val then findLowestAux xs i x.priority.val (i + 1)
        else findLowestAux xs bi bp (i + 1) := rfl
    by_cases h : bp < x.priority.val
    · have hr : findLowestAux (x :: xs) bi bp i =
          findLowestAux xs i x.priority.val (i + 1) := by rw [hstep, if_pos h]
      obtain ⟨ih1, ih2, ih3⟩ := ih i x.priority.val (i + 1)
      rw [hr]
      refine ⟨le_trans (le_of_lt h) ih1, ?_, ?_⟩
      · intro y hy
        rcases List.mem_cons.mp hy with rfl | hy
        · exact ih1
        · exact ih2 y hy
      · rcases ih3 with heq | ⟨j, y, hj, h1, h2⟩
        · refine Or.inr ⟨0, x, by simp, ?_, ?_⟩
          · simp [heq]
          · simp [heq]
        · refine Or.inr ⟨j + 1, y, ?_, ?_, h2⟩
          · simpa using hj
          · omega
    · have hr : findLowestAux (x :: xs) bi bp i =
          findLowestAux xs bi bp (i + 1) := by rw [hstep, if_neg h]
      obtain ⟨ih1, ih2, ih3⟩ := ih bi bp (i + 1)
      rw [hr]
      refine ⟨ih1, ?_, ?_⟩
      · intro y hy
        rcases List.mem_cons.mp hy with rfl | hy
        · exact le_trans (not_lt.mp h) ih1
        · exact ih2 y hy
      · rcases ih3 with heq | ⟨j, y, hj, h1, h2⟩
        · exact Or.inl heq
        · refine Or.inr ⟨j + 1, y, ?_, ?_, h2⟩
          · simpa using hj
          · omega

/-- On a nonempty buffer, `findLowestPriorityIndex` returns an in-range index
of an occupant whose priority value is maximal. -/
theorem findLowestPriorityIndex_spec (l : List BufferItem) (h : l ≠ []) :
    ∃ i item, findLowestPriorityIndex l = some i ∧ l[i]? = some item ∧
      ∀ x ∈ l, x.priority.val ≤ item.priority.val := by
  cases l with
  | nil => exact absurd rfl h
  | cons x xs =>
    have hdef : findLowestPriorityIndex (x :: xs) =
        some (findLowestAux xs 0 x.priority.val 1).1 := rfl
    obtain ⟨h1, h2, h3⟩ := findLowestAux_spec xs 0 x.priority.val 1
    rcases h3 with heq | ⟨j, y, hj, hidx, hval⟩
    · refine ⟨0, x, ?_, by simp, ?_⟩
      · rw [hdef, heq]
      · intro z hz
        rcases List.mem_cons.mp hz with rfl | hz
        · exact le_refl _
        · exact le_trans (h2 z hz) (le_of_eq (by rw [heq]))
    · refine ⟨1 + j, y, ?_, ?_, ?_⟩
      · rw [hdef, hidx]
      · rw [Nat.add_comm]
        simpa using hj
      · intro z hz
        rcases List.mem_cons.mp hz with rfl | hz
        · exact le_of_le_of_eq h1 hval
        · exact le_of_le_of_eq (h2 z hz) hval

end LLMQueue

namespace LLMQueue

/-- Inserting into the sorted prefix only permutes. -/
theorem insertSorted_perm (x : BufferItem) (l : List BufferItem) :
    (insertSorted x l).Perm (x :: l) := by
  induction l with
  | nil => exact List.Perm.refl _
  | cons y ys ih =>
    unfold insertSorted
    split
    · exact (ih.cons y).trans (List.Perm.swap x y ys)
    · exact List.Perm.refl _

/-- Sorting the backing array only permutes it. -/
theorem sortBuffer_perm (l : List BufferItem) : (sortBuffer l).Perm l := by
  induction l with
  | nil => exact List.Perm.refl _
  | cons x xs ih => exact (insertSorted_perm x (sortBuffer xs)).trans (ih.cons x)

/-- Sorting the backing array preserves its length. -/
theorem sortBuffer_length (l : List BufferItem) : (sortBuffer l).length = l.length :=
  (sortBuffer_perm l).length_eq

/-- C5: adding to a non-full `PriorityBuffer` inserts and returns `true`;
adding to a full buffer evicts the (first) occupant of numerically largest
priority and inserts the newcomer — returning `true` — exactly when the
newcomer's priority is numerically smaller, and otherwise leaves the buffer
unchanged returning `false` (equal priorities never evict); the size never
exceeds `maxSize`. -/
theorem C5_priorityBuffer_add (b : PriorityBuffer) (m : QueueMsg) (p : Priority)
    (s : Option ℚ) :
    ((b.buffer.length : ℤ) < b.maxSize →
      (b.add m p s).2 = true ∧
      (b.add m p s).1.buffer.Perm (⟨m, p, s⟩ :: b.buffer) ∧
      (b.add m p s).1.buffer.length = b.buffer.length + 1) ∧
    ((b.buffer.length : ℤ) = b.maxSize → b.buffer ≠ [] →
      ∃ i item, findLowestPriorityIndex b.buffer = some i ∧ b.buffer[i]? = some item ∧
        (∀ x ∈ b.buffer, x.priority.val ≤ item.priority.val) ∧
        ((b.add m p s).2 = true ↔ p.val < item.priority.val) ∧
        (p.val < item.priority.val →
          (b.add m p s).1.buffer.Perm (⟨m, p, s⟩ :: b.buffer.eraseIdx i) ∧
          (b.add m p s).1.buffer.length = b.buffer.length) ∧
        (¬p.val < item.priority.val →
          (b.add m p s).1 = b ∧ (b.add m p s).2 = false)) ∧
    ((b.buffer.length : ℤ) ≤ b.maxSize →
      ((b.add m p s).1.buffer.length : ℤ) ≤ b.maxSize) ∧
    (b.removeMsg m).1.buffer.length ≤ b.buffer.length ∧
    (PriorityBuffer.clear b).buffer.length = 0 := by
  refine ⟨?_, ?_, ?_, ?_, rfl⟩
  · intro hlt
    have hcond : ¬((b.buffer.length : ℤ) ≥ b.maxSize) := not_le.mpr hlt
    have hadd : b.add m p s =
        ({ b with buffer := sortBuffer (b.buffer.concat ⟨m, p, s⟩) }, true) := by
      unfold PriorityBuffer.add
      rw [if_neg hcond]
    rw [hadd]
    refine ⟨rfl, ?_, ?_⟩
    · refine (sortBuffer_perm _).trans ?_
      have hps := List.perm_append_singleton (⟨m, p, s⟩ : BufferItem) b.buffer
      simpa [List.concat_eq_append] using hps
    · simp [sortBuffer_length, List.concat_eq_append]
  · intro heq hne
    obtain ⟨i, item, hfind, hget, hmax⟩ := findLowestPriorityIndex_spec b.buffer hne
    have hcond : (b.buffer.length : ℤ) ≥ b.maxSize := ge_of_eq heq
    have hi : i < b.buffer.length := by
      rcases List.getElem?_eq_some_iff.mp hget with ⟨hlt, _⟩
      exact hlt
    have hadd : b.add m p s =
        if p.val - item.priority.val < 0 then
          ({ b with
             buffer := sortBuffer ((b.buffer.eraseIdx i).concat ⟨m, p, s⟩) }, true)
        else (b, false) := by
      unfold PriorityBuffer.add
      rw [if_pos hcond, hfind]
      dsimp only
      rw [hget]
    refine ⟨i, item, hfind, hget, hmax, ?_, ?_, ?_⟩
    · constructor
      · intro htrue
        by_contra hp
        rw [hadd, if_neg (by omega)] at htrue
        exact Bool.false_ne_true htrue
      · intro hp
        rw [hadd, if_pos (by omega)]
    · intro hp
      rw [hadd, if_pos (by omega)]
      constructor
      · refine (sortBuffer_perm _).trans ?_
        have hps := List.perm_append_singleton (⟨m, p, s⟩ : BufferItem)
          (b.buffer.eraseIdx i)
        simpa [List.concat_eq_append] using hps
      · have herase : (b.buffer.eraseIdx i).length = b.buffer.length - 1 :=
          List.length_eraseIdx_of_lt hi
        simp only [sortBuffer_length, List.concat_eq_append, List.length_append,
          List.length_singleton, herase]
        omega
    · intro hp
      rw [hadd, if_neg (by omega)]
      exact ⟨rfl, rfl⟩
  · intro hle
    by_cases hcond : (b.buffer.length : ℤ) ≥ b.maxSize
    · unfold PriorityBuffer.add
      rw [if_pos hcond]
      cases hfind : findLowestPriorityIndex b.buffer with
      | none => exact hle
      | some i =>
        dsimp only
        cases hget : b.buffer[i]? with
        | none => exact hle
        | some item =>
          dsimp only
          by_cases hp : p.val - item.priority.val < 0
          · rw [if_pos hp]
            have hi : i < b.buffer.length := by
              rcases List.getElem?_eq_some_iff.mp hget with ⟨hlt, _⟩
              exact hlt
            have herase : (b.buffer.eraseIdx i).length = b.buffer.length - 1 :=
              List.length_eraseIdx_of_lt hi
            have hlen2 : (sortBuffer ((b.buffer.eraseIdx i).concat ⟨m, p, s⟩)).length
                = b.buffer.length := by
              simp only [sortBuffer_length, List.concat_eq_append, List.length_append,
                List.length_singleton, herase]
              omega
            dsimp only
            rw [hlen2]
            exact hle
          · rw [if_neg hp]
            exact hle
    · unfold PriorityBuffer.add
      rw [if_neg hcond]
      have : (sortBuffer (b.buffer.concat ⟨m, p, s⟩)).length = b.buffer.length + 1 := by
        simp [sortBuffer_length, List.concat_eq_append]
      simp only [this]
      push_cast
      omega
  · unfold PriorityBuffer.removeMsg
    cases hidx : b.buffer.findIdx? (fun item => item.message.id == m.id) with
    | none => exact le_refl _
    | some index => exact (List.eraseIdx_sublist b.buffer index).length_le

end LLMQueue

namespace LLMQueue

/-- A concrete `LLMRequest` used by witnesses. -/
def sampleRequest (i : String) (p : Priority) : LLMRequest :=
  ⟨i, p, ⟨100⟩, none⟩

/-- A concrete `QueueMessage` envelope used by witnesses. -/
def sampleMsg (i : String) (p : Priority) : QueueMsg :=
  ⟨i, sampleRequest i p, ⟨i, "receipt-" ++ i, 0, 0, none⟩⟩

/-- A full two-slot buffer (NORMAL and LOW occupants) used by the C5 witness. -/
def fullBuf2 : PriorityBuffer :=
  ⟨[⟨sampleMsg "a" .NORMAL, .NORMAL, none⟩, ⟨sampleMsg "b" .LOW, .LOW, none⟩], 2⟩

/-- Witness for C5: an URGENT add into the full two-slot buffer. -/
theorem C5_priorityBuffer_add_witness :
    (fullBuf2.buffer.length : ℤ) = fullBuf2.maxSize ∧ fullBuf2.buffer ≠ [] ∧
    (∃ i item, findLowestPriorityIndex fullBuf2.buffer = some i ∧
      fullBuf2.buffer[i]? = some item ∧
      (∀ x ∈ fullBuf2.buffer, x.priority.val ≤ item.priority.val) ∧
      ((fullBuf2.add (sampleMsg "c" .URGENT) .URGENT none).2 = true ↔
        Priority.URGENT.val < item.priority.val) ∧
      (Priority.URGENT.val < item.priority.val →
        (fullBuf2.add (sampleMsg "c" .URGENT) .URGENT none).1.buffer.Perm
          (⟨sampleMsg "c" .URGENT, .URGENT, none⟩ :: fullBuf2.buffer.eraseIdx i) ∧
        (fullBuf2.add (sampleMsg "c" .URGENT) .URGENT none).1.buffer.length
          = fullBuf2.buffer.length) ∧
      (¬Priority.URGENT.val < item.priority.val →
        (fullBuf2.add (sampleMsg "c" .URGENT) .URGENT none).1 = fullBuf2 ∧
        (fullBuf2.add (sampleMsg "c" .URGENT) .URGENT none).2 = false)) :=
  ⟨by decide, by decide,
    (C5_priorityBuffer_add fullBuf2 (sampleMsg "c" .URGENT) .URGENT none).2.1
      (by decide) (by decide)⟩

end LLMQueue

namespace LLMQueue

/-! ### InMemoryStorage (`src/storage/in-memory.ts`)

JS `Map`s become association lists in insertion order.  The source's
`inFlight` map stores the message object under its current receipt handle,
but only the immutable `id` field is ever read back from it, so the model
stores the id.  Handle strings `receipt-${id}-${Date.now()}` are built by
`mkReceiptHandle` from the explicit `now` parameter. -/

/-- Association-list lookup (JS `Map.get`). -/
def lookupA (l : List (String × β)) (k : String) : Option β :=
  match l with
  | [] => none
  | (k1, v) :: rest => if k1 = k then some v else lookupA rest k

/-- Association-list update (JS `Map.set`: replace in place or append). -/
def setA (l : List (String × β)) (k : String) (v : β) : List (String × β) :=
  match l with
  | [] => [(k, v)]
  | (k1, v1) :: rest => if k1 = k then (k, v) :: rest else (k1, v1) :: setA rest k v

/-- Association-list removal (JS `Map.delete`). -/
def eraseA (l : List (String × β)) (k : String) : List (String × β) :=
  l.filter (fun p => p.1 ≠ k)

/-- `receipt-${id}-${Date.now()}`. -/
def mkReceiptHandle (id : String) (t : ℤ) : String :=
  "receipt-" ++ id ++ "-" ++ toString t

/-- The `InMemoryMessage<T>` record of `in-memory.ts`. -/
structure InMemoryMessage where
  message : QueueMsg
  visibilityTimeout : Option ℤ
  deleteAt : Option ℤ
deriving DecidableEq, Repr

/-- `InMemoryStorage` state (`createdAt`/`lastModified` bookkeeping omitted:
nothing reads them back). -/
structure StorageState where
  messages : List (String × InMemoryMessage)
  inFlight : List (String × String)
  messageCounter : ℕ
deriving DecidableEq, Repr

/-- `InMemoryStorage.enqueue(message)`. -/
def inMemEnqueue (payload : LLMRequest) (now : ℤ) (st : StorageState) :
    QueueMsg × StorageState :=
  let counter := st.messageCounter + 1
  let messageId := "msg-" ++ toString counter
  let receiptHandle := mkReceiptHandle messageId now
  let queueMessage : QueueMsg :=
    ⟨messageId, payload, ⟨messageId, receiptHandle, now, 0, none⟩⟩
  (queueMessage,
    { st with
      messages := setA st.messages messageId ⟨queueMessage, none, none⟩,
      messageCounter := counter })

/-- JS truthiness-guarded `visibilityTimeout > now` test of the dequeue skip
(`inMemMsg.visibilityTimeout && inMemMsg.visibilityTimeout > now`). -/
def visBlocked (o : Option ℤ) (now : ℤ) : Bool :=
  match o with
  | none => false
  | some v => decide (v ≠ 0 ∧ v > now)

/-- JS truthiness-guarded `deleteAt <= now` test
(`inMemMsg.deleteAt && inMemMsg.deleteAt <= now`). -/
def delDue (o : Option ℤ) (now : ℤ) : Bool :=
  match o with
  | none => false
  | some v => decide (v ≠ 0 ∧ v ≤ now)

/-- The expired-in-flight reaping loop at the top of
`InMemoryStorage.dequeue`: drops in-flight entries whose (truthy) deadline is
strictly before `now` and clears the record's `visibilityTimeout`. -/
def reapExpired (now : ℤ) :
    List (String × String) → List (String × InMemoryMessage) →
    List (String × String) × List (String × InMemoryMessage)
  | [], msgs => ([], msgs)
  | (handle, mid) :: rest, msgs =>
    match lookupA msgs mid with
    | some entry =>
      match entry.visibilityTimeout with
      | some v =>
        if v ≠ 0 ∧ v < now then
          reapExpired now rest (setA msgs mid { entry with visibilityTimeout := none })
        else
          let r := reapExpired now rest msgs
          ((handle, mid) :: r.1, r.2)
      | none =>
        let r := reapExpired now rest msgs
        ((handle, mid) :: r.1, r.2)
    | none =>
      let r := reapExpired now rest msgs
      ((handle, mid) :: r.1, r.2)

/-- The main scan loop of `InMemoryStorage.dequeue`: walks the `messages` map
in insertion order until `limit` results are collected, skipping records
still hidden, deleting records whose scheduled deletion is due, and marking
every delivered record in-flight with a fresh handle and incremented
`receiveCount`.  Returns the updated `messages` list, the delivered copies,
and the new in-flight entries in delivery order. -/
def dqLoop (limit vt now : ℤ) :
    List (String × InMemoryMessage) → ℕ →
    List (String × InMemoryMessage) × List QueueMsg × List (String × String)
  | [], _ => ([], [], [])
  | (id, entry) :: rest, count =>
    if (count : ℤ) ≥ limit then ((id, entry) :: rest, [], [])
    else if visBlocked entry.visibilityTimeout now then
      let r := dqLoop limit vt now rest count
      ((id, entry) :: r.1, r.2.1, r.2.2)
    else if delDue entry.deleteAt now then
      dqLoop limit vt now rest count
    else
      let newReceiptHandle := mkReceiptHandle id now
      let attrs := entry.message.attributes
      let newAttrs : MessageAttributes :=
        { attrs with
          receiptHandle := newReceiptHandle,
          receiveCount := attrs.receiveCount + 1,
          firstReceivedAt := match attrs.firstReceivedAt with
            | none => some now
            | some t => some t }
      let updated : QueueMsg := { entry.message with attributes := newAttrs }
      let entry2 : InMemoryMessage :=
        ⟨updated, some (now + vt * 1000), entry.deleteAt⟩
      let r := dqLoop limit vt now rest (count + 1)
      ((id, entry2) :: r.1, updated :: r.2.1, (newReceiptHandle, id) :: r.2.2)

/-- `InMemoryStorage.dequeue(limit, visibilityTimeoutSeconds)` at time `now`. -/
def inMemDequeue (limit vt now : ℤ) (st : StorageState) :
    List QueueMsg × StorageState :=
  let reaped := reapExpired now st.inFlight st.messages
  let r := dqLoop limit vt now reaped.2 0
  (r.2.1,
   { st with
     messages := r.1,
     inFlight := r.2.2.foldl (fun acc p => setA acc p.1 p.2) reaped.1 })

/-- The `Message with receipt handle … not found` error text. -/
def notFoundError (receiptHandle : String) : String :=
  "Message with receipt handle " ++ receiptHandle ++ " not found"

/-- `InMemoryStorage.deleteMessage(receiptHandle)`. -/
def inMemDeleteMessage (receiptHandle : String) (st : StorageState) :
    Except String Unit × StorageState :=
  match lookupA st.inFlight receiptHandle with
  | none => (.error (notFoundError receiptHandle), st)
  | some mid =>
    (.ok (),
     { st with
       messages := eraseA st.messages mid,
       inFlight := eraseA st.inFlight receiptHandle })

/-- `InMemoryStorage.updateVisibilityTimeout(receiptHandle, seconds)`. -/
def inMemUpdateVisibility (receiptHandle : String) (seconds now : ℤ)
    (st : StorageState) : Except String Unit × StorageState :=
  match lookupA st.inFlight receiptHandle with
  | none => (.error (notFoundError receiptHandle), st)
  | some mid =>
    match lookupA st.messages mid with
    | none => (.ok (), st)
    | some entry =>
      (.ok (),
       { st with
         messages := setA st.messages mid
           { entry with visibilityTimeout := some (now + seconds * 1000) } })

/-- The dispatcher's `markAsProcessed` closure (from `prepareForProcessing`):
delete from storage by the captured receipt handle, then drop the in-flight
index entry; a storage failure propagates before the index is touched. -/
def dispMarkAsProcessed (m : QueueMsg) (st : StorageState)
    (inFlightMessages : List (String × QueueMsg)) :
    Except String Unit × StorageState × List (String × QueueMsg) :=
  match inMemDeleteMessage m.attributes.receiptHandle st with
  | (.error e, st2) => (.error e, st2, inFlightMessages)
  | (.ok _, st2) => (.ok (), st2, eraseA inFlightMessages m.id)

end LLMQueue

namespace LLMQueue

/-- A successful lookup exhibits a member of the association list. -/
theorem lookupA_mem {β : Type} {l : List (String × β)} {k : String} {v : β}
    (h : lookupA l k = some v) : (k, v) ∈ l := by
  induction l with
  | nil => simp [lookupA] at h
  | cons hd rest ih =>
    obtain ⟨k1, v1⟩ := hd
    by_cases hk : k1 = k
    · subst hk
      simp [lookupA] at h
      subst h
      exact List.mem_cons_self _ _
    · simp [lookupA, hk] at h
      exact List.mem_cons_of_mem _ (ih h)

/-- Every member of `setA l k v` is either the new pair or an old member. -/
theorem mem_setA {β : Type} {l : List (String × β)} {k : String} {v : β} {p : String × β}
    (h : p ∈ setA l k v) : p = (k, v) ∨ p ∈ l := by
  induction l with
  | nil =>
    simp [setA] at h
    exact Or.inl h
  | cons hd rest ih =>
    obtain ⟨k1, v1⟩ := hd
    by_cases hk : k1 = k
    · simp [setA, hk] at h
      rcases h with h | h
      · exact Or.inl (by simp [h])
      · exact Or.inr (List.mem_cons_of_mem _ h)
    · simp only [setA, if_neg hk] at h
      rcases List.mem_cons.mp h with h | h
      · exact Or.inr (by simp [h])
      · rcases ih h with h | h
        · exact Or.inl h
        · exact Or.inr (List.mem_cons_of_mem _ h)

/-- After erasing a key, looking it up fails. -/
theorem lookupA_eraseA {β : Type} (l : List (String × β)) (k : String) :
    lookupA (eraseA l k) k = none := by
  induction l with
  | nil => rfl
  | cons hd rest ih =>
    obtain ⟨k1, v1⟩ := hd
    by_cases hk : k1 = k
    · simpa [eraseA, List.filter, hk] using ih
    · simpa [eraseA, List.filter, hk, lookupA] using ih

/-- Well-formedness of the in-memory storage: every record is filed under the
id stored in its own message.  Both `enqueue` and `dequeue` preserve it. -/
def WFStorage (st : StorageState) : Prop :=
  ∀ p ∈ st.messages, p.2.message.id = p.1

/-- The reaping pass only clears `visibilityTimeout` fields, so it preserves
the filing invariant of the `messages` map. -/
theorem reapExpired_wf (now : ℤ) (infl : List (String × String)) :
    ∀ (msgs : List (String × InMemoryMessage)),
      (∀ p ∈ msgs, p.2.message.id = p.1) →
      ∀ p ∈ (reapExpired now infl msgs).2, p.2.message.id = p.1 := by
  induction infl with
  | nil => intro msgs h; exact h
  | cons hd rest ih =>
    intro msgs h
    obtain ⟨handle, mid⟩ := hd
    cases hlk : lookupA msgs mid with
    | none =>
      have heq : (reapExpired now ((handle, mid) :: rest) msgs).2 =
          (reapExpired now rest msgs).2 := by
        simp [reapExpired, hlk]
      rw [heq]
      exact ih msgs h
    | some entry =>
      cases hvt : entry.visibilityTimeout with
      | none =>
        have heq : (reapExpired now ((handle, mid) :: rest) msgs).2 =
            (reapExpired now rest msgs).2 := by
          simp [reapExpired, hlk, hvt]
        rw [heq]
        exact ih msgs h
      | some v =>
        by_cases hc : v ≠ 0 ∧ v < now
        · have heq : reapExpired now ((handle, mid) :: rest) msgs =
              reapExpired now rest
                (setA msgs mid { entry with visibilityTimeout := none }) := by
            simp [reapExpired, hlk, hvt, hc]
          rw [heq]
          apply ih
          intro p hp
          rcases mem_setA hp with hp | hp
          · subst hp
            exact h (mid, entry) (lookupA_mem hlk)
          · exact h p hp
        · have heq : (reapExpired now ((handle, mid) :: rest) msgs).2 =
              (reapExpired now rest msgs).2 := by
            simp [reapExpired, hlk, hvt, hc]
          rw [heq]
          exact ih msgs h

/-- Every message delivered by the dequeue scan has a strictly positive
receive count and carries the handle `receipt-<id>-<now>`. -/
theorem dqLoop_results (limit vt now : ℤ) (msgs : List (String × InMemoryMessage)) :
    ∀ (count : ℕ),
      (∀ p ∈ msgs, p.2.message.id = p.1) →
      ∀ m ∈ (dqLoop limit vt now msgs count).2.1,
        1 ≤ m.attributes.receiveCount ∧
        m.attributes.receiptHandle = mkReceiptHandle m.id now := by
  induction msgs with
  | nil =>
    intro count h m hm
    simp [dqLoop] at hm
  | cons hd rest ih =>
    intro count h m hm
    obtain ⟨id, entry⟩ := hd
    by_cases hbrk : (count : ℤ) ≥ limit
    · rw [show dqLoop limit vt now ((id, entry) :: rest) count =
          ((id, entry) :: rest, [], []) from by simp [dqLoop, hbrk]] at hm
      simp at hm
    · by_cases hvis : visBlocked entry.visibilityTimeout now
      · rw [show (dqLoop limit vt now ((id, entry) :: rest) count).2.1 =
            (dqLoop limit vt now rest count).2.1 from by
          simp [dqLoop, hbrk, hvis]] at hm
        exact ih count (fun p hp => h p (List.mem_cons_of_mem _ hp)) m hm
      · by_cases hdel : delDue entry.deleteAt now
        · rw [show (dqLoop limit vt now ((id, entry) :: rest) count).2.1 =
              (dqLoop limit vt now rest count).2.1 from by
            simp [dqLoop, hbrk, hvis, hdel]] at hm
          exact ih count (fun p hp => h p (List.mem_cons_of_mem _ hp)) m hm
        · rw [show (dqLoop limit vt now ((id, entry) :: rest) count).2.1 =
              ({ entry.message with attributes :=
                  { entry.message.attributes with
                    receiptHandle := mkReceiptHandle id now,
                    receiveCount := entry.message.attributes.receiveCount + 1,
                    firstReceivedAt := match entry.message.attributes.firstReceivedAt with
                      | none => some now
                      | some t => some t } } ::
                (dqLoop limit vt now rest (count + 1)).2.1) from by
            simp [dqLoop, hbrk, hvis, hdel]] at hm
          rcases List.mem_cons.mp hm with rfl | hm
          · have hid : entry.message.id = id := h (id, entry) (List.mem_cons_self _ _)
            refine ⟨Nat.le_add_left 1 _, ?_⟩
            simp [hid]
          · exact ih (count + 1) (fun p hp => h p (List.mem_cons_of_mem _ hp)) m hm

end LLMQueue

namespace LLMQueue

/-- C6 (amended): every message returned by the in-memory storage dequeue has
`receiveCount ≥ 1`, and its receipt handle is exactly
`receipt-<id>-<now>` built from the dequeue timestamp — so it is fresh
against handles issued at other timestamps, but not against a handle issued
for the same id in the same millisecond. -/
theorem C6_dequeue_receiveCount_and_handle (limit vt now : ℤ) (st : StorageState)
    (hwf : WFStorage st) :
    ∀ m ∈ (inMemDequeue limit vt now st).1,
      1 ≤ m.attributes.receiveCount ∧
      m.attributes.receiptHandle = mkReceiptHandle m.id now := by
  intro m hm
  exact dqLoop_results limit vt now _ 0
    (reapExpired_wf now st.inFlight st.messages hwf) m hm

/-- The storage produced by one `enqueue` at time 1000 into an empty store. -/
def c6Enq : QueueMsg × StorageState :=
  inMemEnqueue (sampleRequest "r" .NORMAL) 1000 ⟨[], [], 0⟩

/-- A dequeue of that store in the same millisecond (time 1000). -/
def c6Deq : List QueueMsg × StorageState :=
  inMemDequeue 10 30 1000 c6Enq.2

/-- C6 counterexample: when the enqueue and the first dequeue fall into the
same millisecond, the handle issued by the dequeue is *equal* to the handle
issued at enqueue for the same message id — the claimed freshness against
every previously issued handle fails. -/
theorem C6_same_millisecond_collision :
    c6Deq.1.map (fun m => m.attributes.receiptHandle) =
      [c6Enq.1.attributes.receiptHandle] ∧
    c6Enq.1.attributes.receiptHandle = "receipt-msg-1-1000" ∧
    c6Deq.1.map (fun m => m.attributes.receiveCount) = [1] := by
  decide

/-- Witness for the amended C6 statement on the concrete one-message store. -/
theorem C6_dequeue_receiveCount_and_handle_witness :
    WFStorage c6Enq.2 ∧
    (∀ m ∈ (inMemDequeue 10 30 1000 c6Enq.2).1,
      1 ≤ m.attributes.receiveCount ∧
      m.attributes.receiptHandle = mkReceiptHandle m.id 1000) :=
  ⟨by unfold WFStorage; decide,
    C6_dequeue_receiveCount_and_handle 10 30 1000 c6Enq.2 (by unfold WFStorage; decide)⟩

end LLMQueue

namespace LLMQueue

/-- C7: `deleteMessage(h)` removes the message iff `h` is a current in-flight
receipt handle, fails with the not-found error otherwise leaving storage
unchanged, and a second delete (equivalently a second `markAsProcessed`)
with the same handle fails with not-found. -/
theorem C7_deleteMessage_spec (st : StorageState) (h : String) :
    ((inMemDeleteMessage h st).1 = .ok () ↔ (lookupA st.inFlight h).isSome = true) ∧
    (lookupA st.inFlight h = none →
      inMemDeleteMessage h st = (.error (notFoundError h), st)) ∧
    (∀ mid, lookupA st.inFlight h = some mid →
      (inMemDeleteMessage h st).2.messages = eraseA st.messages mid ∧
      lookupA (inMemDeleteMessage h st).2.inFlight h = none) ∧
    ((inMemDeleteMessage h st).1 = .ok () →
      (inMemDeleteMessage h (inMemDeleteMessage h st).2).1 =
        .error (notFoundError h)) ∧
    (∀ (m : QueueMsg) (infl : List (String × QueueMsg)) (st2 : StorageState)
        (infl2 : List (String × QueueMsg)),
      dispMarkAsProcessed m st infl = (.ok (), st2, infl2) →
      (dispMarkAsProcessed m st2 infl2).1 =
        .error (notFoundError m.attributes.receiptHandle)) := by
  refine ⟨?_, ?_, ?_, ?_, ?_⟩
  · cases hlk : lookupA st.inFlight h with
    | none => simp [inMemDeleteMessage, hlk]
    | some mid => simp [inMemDeleteMessage, hlk]
  · intro hnone
    simp [inMemDeleteMessage, hnone]
  · intro mid hmid
    simp [inMemDeleteMessage, hmid, lookupA_eraseA]
  · intro hok
    cases hlk : lookupA st.inFlight h with
    | none => simp [inMemDeleteMessage, hlk] at hok
    | some mid =>
      have hst2 : (inMemDeleteMessage h st).2 =
          { st with
            messages := eraseA st.messages mid,
            inFlight := eraseA st.inFlight h } := by
        simp [inMemDeleteMessage, hlk]
      rw [hst2]
      simp [inMemDeleteMessage, lookupA_eraseA]
  · intro m infl st2 infl2 hmk
    cases hlk : lookupA st.inFlight m.attributes.receiptHandle with
    | none =>
      exfalso
      simp [dispMarkAsProcessed, inMemDeleteMessage, hlk] at hmk
    | some mid =>
      have hst2 : st2.inFlight = eraseA st.inFlight m.attributes.receiptHandle := by
        simp [dispMarkAsProcessed, inMemDeleteMessage, hlk] at hmk
        rw [← hmk.1]
      have hlk2 : lookupA st2.inFlight m.attributes.receiptHandle = none := by
        rw [hst2]
        exact lookupA_eraseA _ _
      simp [dispMarkAsProcessed, inMemDeleteMessage, hlk2]

end LLMQueue

namespace LLMQueue

/-- Witness for C7 on the concrete in-flight handle produced by `c6Deq`. -/
theorem C7_deleteMessage_spec_witness :
    lookupA c6Deq.2.inFlight "receipt-msg-1-1000" = some "msg-1" ∧
    ((inMemDeleteMessage "receipt-msg-1-1000" c6Deq.2).2.messages =
        eraseA c6Deq.2.messages "msg-1" ∧
      lookupA (inMemDeleteMessage "receipt-msg-1-1000" c6Deq.2).2.inFlight
        "receipt-msg-1-1000" = none) ∧
    (inMemDeleteMessage "receipt-msg-1-1000"
        (inMemDeleteMessage "receipt-msg-1-1000" c6Deq.2).2).1 =
      .error (notFoundError "receipt-msg-1-1000") :=
  ⟨by decide,
   (C7_deleteMessage_spec c6Deq.2 "receipt-msg-1-1000").2.2.1 "msg-1" (by decide),
   (C7_deleteMessage_spec c6Deq.2 "receipt-msg-1-1000").2.2.2.1 (by rfl)⟩

end LLMQueue

namespace LLMQueue

/-! ### selectOptimalMessage (`llm-queue-dispatcher.ts`, lines 86–133)

The candidate scan maps each candidate to `null` when the rate limiter
disallows it and otherwise attaches its score, filters out the `null`s, and
reduces with the strict comparator
`current.score.total > best.score.total ? current : best`; a final check
rejects totals below `minScoreThreshold || 0.1`.  The map-to-null-then-filter
composition is rendered as filter-then-map (the same admissible candidates
in the same order, each paired with its score).  The scan is stated
generically over the candidate type, the admission predicate and the total
computed per candidate, which covers every rate limiter and scoring
configuration. -/

/-- The JS `reduce((best, current) => current.total > best.total ? current : best)`
reduction, generic in the key. -/
def pickBest {α : Type} (key : α → ℚ) (c : α) (l : List α) : α :=
  l.foldl (fun best cur => if key cur > key best then cur else best) c

/-- Winner choice over scored candidates plus the threshold gate
(`scoredCandidates.length === 0` → `null`; `total < threshold` → `null`). -/
def selectFromScored {C : Type} (scored : List (C × ℚ)) (threshold : ℚ) : Option C :=
  match scored with
  | [] => none
  | c :: rest =>
    let selected := pickBest Prod.snd c rest
    if selected.2 < threshold then none else some selected.1

/-- `this.config.minScoreThreshold || 0.1`. -/
def effMinScoreThreshold (cfgThr : Option ℚ) : ℚ := jsOrQ cfgThr (1/10)

/-- `selectOptimalMessage`: discard candidates the rate limiter disallows,
score the rest, take the strict-comparator maximum, gate by the threshold. -/
def selectOptimalPure {C : Type} (cands : List C) (allowed : C → Bool)
    (total : C → ℚ) (threshold : ℚ) : Option C :=
  selectFromScored ((cands.filter allowed).map (fun c => (c, total c))) threshold

/-- Decomposition of the strict-`>` fold: the winner splits `c :: l` into a
strictly-smaller prefix and a no-larger suffix, and dominates the seed. -/
theorem pickBest_decomp {α : Type} (key : α → ℚ) (l : List α) :
    ∀ c : α, ∃ l₁ l₂, c :: l = l₁ ++ pickBest key c l :: l₂ ∧
      key c ≤ key (pickBest key c l) ∧
      (∀ x ∈ l₁, key x < key (pickBest key c l)) ∧
      (∀ x ∈ l₂, key x ≤ key (pickBest key c l)) := by
  induction l with
  | nil =>
    intro c
    exact ⟨[], [], rfl, le_refl _, (by intro x hx; cases hx), (by intro x hx; cases hx)⟩
  | cons a l ih =>
    intro c
    have hfold : pickBest key c (a :: l) =
        pickBest key (if key a > key c then a else c) l := rfl
    by_cases h : key a > key c
    · rw [hfold, if_pos h]
      obtain ⟨l₁, l₂, hdec, hseed, hpre, hsuf⟩ := ih a
      refine ⟨c :: l₁, l₂, ?_, ?_, ?_, hsuf⟩
      · rw [List.cons_append, ← hdec]
      · exact le_trans (le_of_lt h) hseed
      · intro x hx
        rcases List.mem_cons.mp hx with rfl | hx
        · exact lt_of_lt_of_le h hseed
        · exact hpre x hx
    · rw [hfold, if_neg h]
      obtain ⟨l₁, l₂, hdec, hseed, hpre, hsuf⟩ := ih c
      cases l₁ with
      | nil =>
        have hw : pickBest key c l = c := by
          have := hdec
          simp at this
          exact this.1.symm
        have hl₂ : l₂ = l := by
          have := hdec
          simp [hw] at this
          exact this.symm
        refine ⟨[], a :: l, by simp [hw], le_refl _ |>.trans (le_of_eq (by rw [hw])), ?_, ?_⟩
        · intro x hx
          cases hx
        · intro x hx
          rcases List.mem_cons.mp hx with rfl | hx
          · rw [hw]
            exact not_lt.mp h
          · rw [hw]
            have := hsuf x (by rw [hl₂]; exact hx)
            rw [hw] at this
            exact this
      | cons chead l₁t =>
        rw [List.cons_append] at hdec
        have hhead : c = chead := (List.cons.inj hdec).1
        have hltail : l = l₁t ++ pickBest key c l :: l₂ := (List.cons.inj hdec).2
        refine ⟨chead :: a :: l₁t, l₂, ?_, hseed, ?_, hsuf⟩
        · have hflat : (chead :: a :: l₁t) ++ pickBest key c l :: l₂ =
              chead :: a :: (l₁t ++ pickBest key c l :: l₂) := by simp
          rw [hflat, ← hltail, ← hhead]
        · intro x hx
          rcases List.mem_cons.mp hx with rfl | hx
          · exact hpre x (List.mem_cons_self _ _)
          · rcases List.mem_cons.mp hx with rfl | hx
            · have hc : key c < key (pickBest key c l) := by
                have h1 := hpre chead (List.mem_cons_self _ _)
                rw [← hhead] at h1
                exact h1
              exact lt_of_le_of_lt (not_lt.mp h) hc
            · exact hpre x (List.mem_cons_of_mem _ hx)

end LLMQueue

namespace LLMQueue

/-- Reducing by `snd` over score-paired candidates is reducing by the total
over the candidates. -/
theorem pickBest_map_snd {C : Type} (total : C → ℚ) (l : List C) : ∀ c : C,
    pickBest Prod.snd (c, total c) (l.map (fun x => (x, total x))) =
      (pickBest total c l, total (pickBest total c l)) := by
  induction l with
  | nil => intro c; rfl
  | cons a l ih =>
    intro c
    by_cases h : total a > total c
    · have h1 : pickBest Prod.snd (c, total c) ((a :: l).map (fun x => (x, total x))) =
          pickBest Prod.snd (a, total a) (l.map (fun x => (x, total x))) := by
        show pickBest Prod.snd
          (if (a, total a).2 > (c, total c).2 then (a, total a) else (c, total c))
          (l.map (fun x => (x, total x))) = _
        rw [if_pos h]
      have h2 : pickBest total c (a :: l) = pickBest total a l := by
        show pickBest total (if total a > total c then a else c) l = _
        rw [if_pos h]
      rw [h1, h2]
      exact ih a
    · have h1 : pickBest Prod.snd (c, total c) ((a :: l).map (fun x => (x, total x))) =
          pickBest Prod.snd (c, total c) (l.map (fun x => (x, total x))) := by
        show pickBest Prod.snd
          (if (a, total a).2 > (c, total c).2 then (a, total a) else (c, total c))
          (l.map (fun x => (x, total x))) = _
        rw [if_neg h]
      have h2 : pickBest total c (a :: l) = pickBest total c l := by
        show pickBest total (if total a > total c then a else c) l = _
        rw [if_neg h]
      rw [h1, h2]
      exact ih c

/-- C3: `selectOptimalMessage` discards exactly the candidates the rate
limiter disallows; a returned winner is an admissible candidate whose total
is at least the threshold and at least every admissible candidate's total,
and it is the first such maximum in candidate order; `null` comes back
exactly when every admissible candidate (possibly none) scores below the
threshold; the threshold defaults to `0.1` when unconfigured. -/
theorem C3_selectOptimalMessage {C : Type} (cands : List C) (allowed : C → Bool)
    (total : C → ℚ) (threshold : ℚ) :
    effMinScoreThreshold none = 1/10 ∧
    (selectOptimalPure cands allowed total threshold = none ↔
      ∀ c ∈ cands, allowed c = true → total c < threshold) ∧
    (∀ w, selectOptimalPure cands allowed total threshold = some w →
      w ∈ cands ∧ allowed w = true ∧ threshold ≤ total w ∧
      (∀ c ∈ cands, allowed c = true → total c ≤ total w) ∧
      ∃ l₁ l₂, cands.filter allowed = l₁ ++ w :: l₂ ∧
        ∀ x ∈ l₁, total x < total w) := by
  cases hfl : cands.filter allowed with
  | nil =>
    have hsel : selectOptimalPure cands allowed total threshold = none := by
      unfold selectOptimalPure
      rw [hfl]
      rfl
    refine ⟨rfl, ?_, ?_⟩
    · rw [hsel]
      constructor
      · intro _ c hc hall
        have hmem : c ∈ cands.filter allowed := List.mem_filter.mpr ⟨hc, hall⟩
        rw [hfl] at hmem
        cases hmem
      · intro _
        rfl
    · intro w hw
      rw [hsel] at hw
      cases hw
  | cons c0 rest =>
    have hmap : (cands.filter allowed).map (fun c => (c, total c)) =
        (c0, total c0) :: rest.map (fun c => (c, total c)) := by
      rw [hfl]
      rfl
    have hpick := pickBest_map_snd total rest c0
    have hsel : selectOptimalPure cands allowed total threshold =
        if total (pickBest total c0 rest) < threshold then none
        else some (pickBest total c0 rest) := by
      show selectFromScored ((cands.filter allowed).map (fun c => (c, total c)))
        threshold = _
      rw [hmap]
      show (if (pickBest Prod.snd (c0, total c0)
              (rest.map (fun x => (x, total x)))).2 < threshold then none
            else some (pickBest Prod.snd (c0, total c0)
              (rest.map (fun x => (x, total x)))).1) = _
      rw [hpick]
    obtain ⟨l₁, l₂, hdec, hseed, hpre, hsuf⟩ := pickBest_decomp total rest c0
    have hdecfl : cands.filter allowed = l₁ ++ pickBest total c0 rest :: l₂ := by
      rw [hfl]
      exact hdec
    have hw0fl : pickBest total c0 rest ∈ cands.filter allowed := by
      rw [hdecfl]
      exact List.mem_append_right _ (List.mem_cons_self _ _)
    have hw0mem : pickBest total c0 rest ∈ cands := (List.mem_filter.mp hw0fl).1
    have hw0all : allowed (pickBest total c0 rest) = true := (List.mem_filter.mp hw0fl).2
    have hmaxc : ∀ c ∈ cands, allowed c = true → total c ≤ total (pickBest total c0 rest) := by
      intro c hc ha
      have hx : c ∈ cands.filter allowed := List.mem_filter.mpr ⟨hc, ha⟩
      rw [hdecfl] at hx
      rcases List.mem_append.mp hx with hx | hx
      · exact le_of_lt (hpre c hx)
      · rcases List.mem_cons.mp hx with heq | hx
        · exact le_of_eq (by rw [heq])
        · exact hsuf c hx
    refine ⟨rfl, ?_, ?_⟩
    · rw [hsel]
      by_cases ht : total (pickBest total c0 rest) < threshold
      · rw [if_pos ht]
        constructor
        · intro _ c hc ha
          exact lt_of_le_of_lt (hmaxc c hc ha) ht
        · intro _
          rfl
      · rw [if_neg ht]
        constructor
        · intro hcontra
          cases hcontra
        · intro hall
          exact absurd (hall _ hw0mem hw0all) ht
    · intro w hw
      rw [hsel] at hw
      by_cases ht : total (pickBest total c0 rest) < threshold
      · rw [if_pos ht] at hw
        cases hw
      · rw [if_neg ht] at hw
        obtain rfl : pickBest total c0 rest = w := Option.some.inj hw
        exact ⟨hw0mem, hw0all, not_lt.mp ht, hmaxc, l₁, l₂, hdec, hpre⟩

end LLMQueue

namespace LLMQueue

/-! ### LLMQueueDispatcher (`src/llm-queue-dispatcher.ts`)

The dispatcher is parameterised by a storage adapter (a state-passing
`dequeue` that may throw), a rate limiter (`canProcess` / `getMetrics`, both
fallible), and the score calculator as a function — quantifying theorems
over the calculator covers every `scoring` configuration including custom
scorers.  `try { … } catch { … }` blocks are explicit matches on the
`Except` value, keeping the state reached before the throw. -/

/-- The rate limiter's `canProcess` verdict (fields the dispatcher reads). -/
structure CanProcessResult where
  allowed : Bool
  availableIn : Option ℚ
deriving DecidableEq, Repr

/-- Rate-limiter metrics snapshot (the `tpm` fields the scorer reads). -/
structure TPMetrics where
  available : ℚ
  limit : ℚ
deriving DecidableEq, Repr

/-- `rateLimiter.getMetrics()` result. -/
structure RLMetrics where
  tpm : TPMetrics
deriving DecidableEq, Repr

/-- The `LLMThrottle` contract consumed by the dispatcher; either call may
throw. -/
structure RateLimiter where
  canProcess : ℚ → Except String CanProcessResult
  getMetrics : Unit → Except String RLMetrics

/-- The scoring context handed to the calculator (the metrics report of the
metrics collector is omitted: no claim depends on it and the calculator is
universally quantified). -/
structure ScoringCtx where
  rateLimiterMetrics : RLMetrics
  currentTime : ℤ

/-- The dispatcher config fields the dequeue path reads. -/
structure DispatcherConfig where
  bufferSize : Option ℤ
  enablePrefetch : Bool
  prefetchInterval : Option ℤ
  maxCandidatesToEvaluate : Option ℤ
  minScoreThreshold : Option ℚ
deriving DecidableEq, Repr

/-- `config.bufferSize || 50` (constructor, line 34). -/
def effBufferSize (v : Option ℤ) : ℤ := jsOrZ v 50

/-- `config.prefetchInterval || 5000` (`startPrefetchWorker`, line 237). -/
def effPrefetchInterval (v : Option ℤ) : ℤ := jsOrZ v 5000

/-- `config.maxCandidatesToEvaluate || 20` (`getCandidatesFromBuffer`). -/
def effMaxCandidates (v : Option ℤ) : ℤ := jsOrZ v 20

/-- `prefetchMessages` line 218:
`const needed = this.config.bufferSize || 50 - this.prefetchBuffer.size();`
— JS operator precedence parses this as `bufferSize || (50 - size)`. -/
def prefetchNeeded (cfgBufferSize : Option ℤ) (bufferSize : ℕ) : ℤ :=
  jsOrZ cfgBufferSize (50 - (bufferSize : ℤ))

/-- `private visibilityTimeout: number = 30`. -/
def visibilityTimeoutDefault : ℤ := 30

/-- Dispatcher-internal state: the in-flight index (`message.id` to entry
with `startedAt`; the stored rate-limiter reference is not modelled — it is
never read on the dequeue path) and the prefetch buffer. -/
structure DState where
  inFlightMessages : List (String × QueueMsg × ℤ)
  prefetchBuffer : PriorityBuffer

/-- The dispatcher state built by the constructor:
`new PriorityBuffer(config.bufferSize || 50)` and an empty in-flight map. -/
def initialDState (cfg : DispatcherConfig) : DState :=
  ⟨[], ⟨[], effBufferSize cfg.bufferSize⟩⟩

/-- The storage-adapter surface the dequeue path uses, over an abstract
storage state `σ`; `dequeue limit visibilityTimeout` may throw. -/
structure StorageOps (σ : Type) where
  dequeue : ℤ → ℤ → σ → Except String (List QueueMsg) × σ

/-- The candidate map of `selectOptimalMessage` (lines 98–116): per
candidate, ask `canProcess(tokenInfo.estimated)` (errors propagate), drop it
when disallowed, otherwise pair it with its computed score. -/
def scoreCandidates (rl : RateLimiter) (calcScore : QueueMsg → ScoringCtx → ℚ)
    (ctx : ScoringCtx) : List QueueMsg → Except String (List (QueueMsg × ℚ))
  | [] => .ok []
  | m :: rest =>
    match rl.canProcess m.payload.tokenInfo.estimated with
    | .error e => .error e
    | .ok cp =>
      match scoreCandidates rl calcScore ctx rest with
      | .error e => .error e
      | .ok tail => .ok (if cp.allowed then (m, calcScore m ctx) :: tail else tail)

/-- `selectOptimalMessage` (lines 86–133) as run by the dispatcher:
`getMetrics`, score the candidates, then the strict-max/threshold core. -/
def selectOptimalMessageE (rl : RateLimiter) (calcScore : QueueMsg → ScoringCtx → ℚ)
    (cfg : DispatcherConfig) (now : ℤ) (cands : List QueueMsg) :
    Except String (Option QueueMsg) :=
  match rl.getMetrics () with
  | .error e => .error e
  | .ok metrics =>
    match scoreCandidates rl calcScore ⟨metrics, now⟩ cands with
    | .error e => .error e
    | .ok scored =>
      .ok (selectFromScored scored (effMinScoreThreshold cfg.minScoreThreshold))

/-- `prefetchMessages` (lines 216–234): compute `needed`, bail out when it is
not positive, pull from storage (errors are caught and swallowed) and add
each message to the buffer under its payload priority. -/
def prefetchMessagesE {σ : Type} (ops : StorageOps σ) (cfg : DispatcherConfig)
    (st : σ) (ds : DState) : σ × DState :=
  let needed := prefetchNeeded cfg.bufferSize ds.prefetchBuffer.size
  if needed ≤ 0 then (st, ds)
  else
    match ops.dequeue needed visibilityTimeoutDefault st with
    | (.error _, st2) => (st2, ds)
    | (.ok msgs, st2) =>
      (st2, msgs.foldl (fun d m =>
        { d with prefetchBuffer := (d.prefetchBuffer.add m m.payload.priority none).1 }) ds)

/-- `prepareForProcessing` (lines 160–195): register the winner in the
in-flight index with its start time and hand it to the caller. -/
def prepareForProcessing (m : QueueMsg) (now : ℤ) (ds : DState) : DState :=
  { ds with inFlightMessages := setA ds.inFlightMessages m.id (m, now) }

/-- `fetchAndProcessDirectly` (lines 197–214): pull up to 10 messages, select
among them, prepare the winner; the whole body is inside `try { … } catch`
returning `null`. -/
def fetchAndProcessDirectly {σ : Type} (ops : StorageOps σ) (rl : RateLimiter)
    (calcScore : QueueMsg → ScoringCtx → ℚ) (cfg : DispatcherConfig) (now : ℤ)
    (st : σ) (ds : DState) : Option QueueMsg × σ × DState :=
  match ops.dequeue 10 visibilityTimeoutDefault st with
  | (.error _, st2) => (none, st2, ds)
  | (.ok [], st2) => (none, st2, ds)
  | (.ok (m0 :: ms), st2) =>
    match selectOptimalMessageE rl calcScore cfg now (m0 :: ms) with
    | .error _ => (none, st2, ds)
    | .ok none => (none, st2, ds)
    | .ok (some sel) => (some sel, st2, prepareForProcessing sel now ds)

/-- Steps 2–5 of `dequeue` after the conditional buffer refill: collect up
to `maxCandidatesToEvaluate || 20` candidates in priority order, fall back to
the direct fetch when there are none and prefetch is disabled, otherwise
select the optimal candidate (a thrown rate-limiter error lands in the outer
`catch`, i.e. the `.error` branch), remove the winner from the buffer and
prepare it. -/
def dispatcherDequeueCore {σ : Type} (ops : StorageOps σ) (rl : RateLimiter)
    (calcScore : QueueMsg → ScoringCtx → ℚ) (cfg : DispatcherConfig) (now : ℤ)
    (st : σ) (ds : DState) : Except String (Option QueueMsg) × σ × DState :=
  let candidates := ds.prefetchBuffer.peekByPriority
    (some (effMaxCandidates cfg.maxCandidatesToEvaluate))
  if candidates.isEmpty ∧ cfg.enablePrefetch = false then
    let r := fetchAndProcessDirectly ops rl calcScore cfg now st ds
    (.ok r.1, r.2.1, r.2.2)
  else
    match selectOptimalMessageE rl calcScore cfg now candidates with
    | .error _ => (.ok none, st, ds)
    | .ok none => (.ok none, st, ds)
    | .ok (some sel) =>
      let ds2 := { ds with prefetchBuffer := (ds.prefetchBuffer.removeMsg sel).1 }
      (.ok (some sel), st, prepareForProcessing sel now ds2)

/-- `dequeue(rateLimiter)` (lines 62–84).  The body sits in
`try { … } catch { return null }`: step 1 refills the buffer when it is low
and prefetch is disabled (errors swallowed inside), then the core runs. -/
def dispatcherDequeue {σ : Type} (ops : StorageOps σ) (rl : RateLimiter)
    (calcScore : QueueMsg → ScoringCtx → ℚ) (cfg : DispatcherConfig) (now : ℤ)
    (st : σ) (ds : DState) : Except String (Option QueueMsg) × σ × DState :=
  let p :=
    if ds.prefetchBuffer.size < 10 ∧ cfg.enablePrefetch = false then
      prefetchMessagesE ops cfg st ds
    else (st, ds)
  dispatcherDequeueCore ops rl calcScore cfg now p.1 p.2

end LLMQueue

namespace LLMQueue

/-- Under a limiter whose `canProcess` always answers `allowed = false`, the
candidate scan yields no scored candidate (or propagates a thrown error). -/
theorem scoreCandidates_denyAll (rl : RateLimiter)
    (calcScore : QueueMsg → ScoringCtx → ℚ) (ctx : ScoringCtx)
    (hdeny : ∀ t r, rl.canProcess t = .ok r → r.allowed = false) :
    ∀ l, scoreCandidates rl calcScore ctx l = .ok [] ∨
      ∃ e, scoreCandidates rl calcScore ctx l = .error e := by
  intro l
  induction l with
  | nil => exact Or.inl rfl
  | cons m rest ih =>
    have hstep : scoreCandidates rl calcScore ctx (m :: rest) =
        match rl.canProcess m.payload.tokenInfo.estimated with
        | .error e => .error e
        | .ok cp =>
          match scoreCandidates rl calcScore ctx rest with
          | .error e => .error e
          | .ok tail => .ok (if cp.allowed then (m, calcScore m ctx) :: tail else tail) :=
      rfl
    cases hcp : rl.canProcess m.payload.tokenInfo.estimated with
    | error e =>
      refine Or.inr ⟨e, ?_⟩
      rw [hstep, hcp]
    | ok cp =>
      have hall : cp.allowed = false := hdeny _ cp hcp
      rcases ih with hok | ⟨e, herr⟩
      · left
        rw [hstep, hcp, hok]
        simp [hall]
      · right
        exact ⟨e, by rw [hstep, hcp, herr]⟩

/-- Under a deny-all limiter, `selectOptimalMessage` selects nothing (or
propagates a thrown error). -/
theorem selectOptimal_denyAll (rl : RateLimiter)
    (calcScore : QueueMsg → ScoringCtx → ℚ) (cfg : DispatcherConfig) (now : ℤ)
    (cands : List QueueMsg)
    (hdeny : ∀ t r, rl.canProcess t = .ok r → r.allowed = false) :
    selectOptimalMessageE rl calcScore cfg now cands = .ok none ∨
      ∃ e, selectOptimalMessageE rl calcScore cfg now cands = .error e := by
  unfold selectOptimalMessageE
  cases hm : rl.getMetrics () with
  | error e => exact Or.inr ⟨e, rfl⟩
  | ok metrics =>
    dsimp only
    rcases scoreCandidates_denyAll rl calcScore ⟨metrics, now⟩ hdeny cands with hok | ⟨e, herr⟩
    · left
      rw [hok]
      rfl
    · right
      exact ⟨e, by rw [herr]⟩

/-- Folding prefetched messages into the buffer never touches the in-flight
index. -/
theorem foldlAdd_inFlight : ∀ (msgs : List QueueMsg) (d : DState),
    (msgs.foldl (fun d m =>
      { d with prefetchBuffer := (d.prefetchBuffer.add m m.payload.priority none).1 })
      d).inFlightMessages = d.inFlightMessages := by
  intro msgs
  induction msgs with
  | nil => intro d; rfl
  | cons m rest ih =>
    intro d
    rw [List.foldl_cons]
    exact ih _

/-- `prefetchMessages` never touches the in-flight index. -/
theorem prefetchMessagesE_inFlight {σ : Type} (ops : StorageOps σ)
    (cfg : DispatcherConfig) (st : σ) (ds : DState) :
    (prefetchMessagesE ops cfg st ds).2.inFlightMessages = ds.inFlightMessages := by
  unfold prefetchMessagesE
  dsimp only
  split
  · rfl
  · split
    · rfl
    · exact foldlAdd_inFlight _ _

/-- Under a deny-all limiter the direct-fetch path returns `null` and leaves
the dispatcher state untouched (the storage state may change). -/
theorem fetchDirect_denyAll {σ : Type} (ops : StorageOps σ) (rl : RateLimiter)
    (calcScore : QueueMsg → ScoringCtx → ℚ) (cfg : DispatcherConfig) (now : ℤ)
    (st : σ) (ds : DState)
    (hdeny : ∀ t r, rl.canProcess t = .ok r → r.allowed = false) :
    (fetchAndProcessDirectly ops rl calcScore cfg now st ds).1 = none ∧
    (fetchAndProcessDirectly ops rl calcScore cfg now st ds).2.2 = ds := by
  unfold fetchAndProcessDirectly
  cases hdq : ops.dequeue 10 visibilityTimeoutDefault st with
  | mk res st2 =>
    cases res with
    | error e => exact ⟨rfl, rfl⟩
    | ok msgs =>
      cases msgs with
      | nil => exact ⟨rfl, rfl⟩
      | cons m0 ms =>
        dsimp only
        rcases selectOptimal_denyAll rl calcScore cfg now (m0 :: ms) hdeny with hok | ⟨e, herr⟩
        · rw [hok]
          exact ⟨rfl, rfl⟩
        · rw [herr]
          exact ⟨rfl, rfl⟩

/-- Under a deny-all limiter, the post-prefetch core returns `null` and
leaves the in-flight index untouched. -/
theorem dispatcherDequeueCore_denyAll {σ : Type} (ops : StorageOps σ)
    (rl : RateLimiter) (calcScore : QueueMsg → ScoringCtx → ℚ)
    (cfg : DispatcherConfig) (now : ℤ) (st : σ) (ds : DState)
    (hdeny : ∀ t r, rl.canProcess t = .ok r → r.allowed = false) :
    (dispatcherDequeueCore ops rl calcScore cfg now st ds).1 = .ok none ∧
    (dispatcherDequeueCore ops rl calcScore cfg now st ds).2.2.inFlightMessages =
      ds.inFlightMessages := by
  unfold dispatcherDequeueCore
  dsimp only
  split
  · obtain ⟨h1, h2⟩ := fetchDirect_denyAll ops rl calcScore cfg now st ds hdeny
    constructor
    · rw [h1]
    · rw [h2]
  · rcases selectOptimal_denyAll rl calcScore cfg now _ hdeny with hok | ⟨e, herr⟩
    · rw [hok]
      exact ⟨rfl, rfl⟩
    · rw [herr]
      exact ⟨rfl, rfl⟩

/-- C2 (amended): for every rate limiter whose `canProcess` always answers
`allowed = false`, every `dispatcher.dequeue` returns `null` and the
dispatcher's in-flight index is unchanged — for every storage adapter,
scoring function, configuration and dispatcher state.  (Storage-side
transitions still happen; see the counterexample.) -/
theorem C2_denyAll_dequeue {σ : Type} (ops : StorageOps σ) (rl : RateLimiter)
    (calcScore : QueueMsg → ScoringCtx → ℚ) (cfg : DispatcherConfig) (now : ℤ)
    (st : σ) (ds : DState)
    (hdeny : ∀ t r, rl.canProcess t = .ok r → r.allowed = false) :
    (dispatcherDequeue ops rl calcScore cfg now st ds).1 = .ok none ∧
    (dispatcherDequeue ops rl calcScore cfg now st ds).2.2.inFlightMessages =
      ds.inFlightMessages := by
  unfold dispatcherDequeue
  dsimp only
  have hpf : (if ds.prefetchBuffer.size < 10 ∧ cfg.enablePrefetch = false then
      prefetchMessagesE ops cfg st ds
      else (st, ds)).2.inFlightMessages = ds.inFlightMessages := by
    split
    · exact prefetchMessagesE_inFlight ops cfg st ds
    · rfl
  obtain ⟨h1, h2⟩ := dispatcherDequeueCore_denyAll ops rl calcScore cfg now
    (if ds.prefetchBuffer.size < 10 ∧ cfg.enablePrefetch = false then
      prefetchMessagesE ops cfg st ds
      else (st, ds)).1
    (if ds.prefetchBuffer.size < 10 ∧ cfg.enablePrefetch = false then
      prefetchMessagesE ops cfg st ds
      else (st, ds)).2 hdeny
  refine ⟨h1, ?_⟩
  rw [h2]
  exact hpf

/-- The post-prefetch core never surfaces an exception. -/
theorem dispatcherDequeueCore_ok {σ : Type} (ops : StorageOps σ) (rl : RateLimiter)
    (calcScore : QueueMsg → ScoringCtx → ℚ) (cfg : DispatcherConfig) (now : ℤ)
    (st : σ) (ds : DState) :
    ∃ r : Option QueueMsg,
      (dispatcherDequeueCore ops rl calcScore cfg now st ds).1 = .ok r := by
  unfold dispatcherDequeueCore
  dsimp only
  split
  · exact ⟨_, rfl⟩
  · split
    · exact ⟨_, rfl⟩
    · exact ⟨_, rfl⟩
    · exact ⟨_, rfl⟩

/-- C4: the dequeue path is total — whatever the storage adapter and rate
limiter do (including throwing on every call), `dispatcher.dequeue` produces
an `.ok` result carrying either a message handle or `null`, never an
uncaught exception. -/
theorem C4_dequeue_never_throws {σ : Type} (ops : StorageOps σ) (rl : RateLimiter)
    (calcScore : QueueMsg → ScoringCtx → ℚ) (cfg : DispatcherConfig) (now : ℤ)
    (st : σ) (ds : DState) :
    ∃ r : Option QueueMsg,
      (dispatcherDequeue ops rl calcScore cfg now st ds).1 = .ok r := by
  unfold dispatcherDequeue
  dsimp only
  exact dispatcherDequeueCore_ok ops rl calcScore cfg now _ _

end LLMQueue

namespace LLMQueue

/-- The in-memory storage as a `StorageOps` adapter at a fixed clock. -/
def inMemOps (now : ℤ) : StorageOps StorageState :=
  ⟨fun limit vt st =>
    let r := inMemDequeue limit vt now st
    (.ok r.1, r.2)⟩

/-- A rate limiter that answers `allowed = false` on every `canProcess`. -/
def denyAllRL : RateLimiter :=
  ⟨fun _ => .ok ⟨false, none⟩, fun _ => .ok ⟨⟨0, 0⟩⟩⟩

/-- A score function for runs whose limiter filters every candidate — the
deny-all paths provably never consult it, so any function serves. -/
def zeroCalc : QueueMsg → ScoringCtx → ℚ := fun _ _ => 0

/-- An entirely default dispatcher configuration. -/
def defaultConfig : DispatcherConfig := ⟨none, false, none, none, none⟩

/-- C2 counterexample: with a deny-all limiter over the in-memory storage
holding one enqueued message, `dequeue` returns `null` — but the message
still transitions to in-flight **in storage**: its `receiveCount` is
incremented to 1 and it becomes hidden (visibility deadline 31000), because
the prefetch pull calls `storage.dequeue` before the rate limiter is ever
consulted. -/
theorem C2_storage_transition_counterexample :
    (dispatcherDequeue (inMemOps 1000) denyAllRL zeroCalc defaultConfig 1000
        c6Enq.2 (initialDState defaultConfig)).1 = .ok none ∧
    (dispatcherDequeue (inMemOps 1000) denyAllRL zeroCalc defaultConfig 1000
        c6Enq.2 (initialDState defaultConfig)).2.1.messages.map
      (fun p => (p.1, p.2.message.attributes.receiveCount, p.2.visibilityTimeout)) =
      [("msg-1", 1, some 31000)] :=
  ⟨rfl, by decide⟩

/-- Witness for the amended C2 statement on the same concrete run. -/
theorem C2_denyAll_dequeue_witness :
    (∀ t r, denyAllRL.canProcess t = .ok r → r.allowed = false) ∧
    ((dispatcherDequeue (inMemOps 1000) denyAllRL zeroCalc defaultConfig 1000
        c6Enq.2 (initialDState defaultConfig)).1 = .ok none ∧
     (dispatcherDequeue (inMemOps 1000) denyAllRL zeroCalc defaultConfig 1000
        c6Enq.2 (initialDState defaultConfig)).2.2.inFlightMessages =
       (initialDState defaultConfig).inFlightMessages) :=
  ⟨fun _ r hr => by rw [← Except.ok.inj hr],
   C2_denyAll_dequeue (inMemOps 1000) denyAllRL zeroCalc defaultConfig 1000
     c6Enq.2 (initialDState defaultConfig)
     (fun _ r hr => by rw [← Except.ok.inj hr])⟩

/-- A storage adapter recording each `dequeue` limit it is asked for. -/
def logOps : StorageOps (List ℤ) :=
  ⟨fun limit _ log => (.ok [], log ++ [limit])⟩

/-- Config with `bufferSize: 50` and prefetch disabled. -/
def c1Config : DispatcherConfig := ⟨some 50, false, none, none, none⟩

/-- Dispatcher state whose buffer (capacity 50) holds `n` NORMAL messages. -/
def c1Buf (n : ℕ) : DState :=
  ⟨[], ⟨List.replicate n ⟨sampleMsg "a" .NORMAL, .NORMAL, none⟩, 50⟩⟩

/-- C1 evidence: `needed = config.bufferSize || 50 - size` parses as
`bufferSize || (50 - size)`, so with `bufferSize = 50` and 40 buffered
messages the prefetch asks storage for 50 messages (the claim allows at most
`B - s = 10`), and with a full buffer (50 of 50) it still issues a dequeue
for 50 (the claim forbids any); the unconfigured default case `B = 50`
computes `50 - s` as the spec describes. -/
theorem C1_prefetch_limit_bug :
    prefetchNeeded (some 50) 40 = 50 ∧
    (prefetchMessagesE logOps c1Config [] (c1Buf 40)).1 = [50] ∧
    ¬((50 : ℤ) ≤ 50 - (40 : ℤ)) ∧
    (prefetchMessagesE logOps c1Config [] (c1Buf 50)).1 = [50] ∧
    prefetchNeeded none 40 = 50 - (40 : ℤ) := by
  decide

/-- C10: a config option set to `0` behaves exactly like an absent one —
`minScoreThreshold 0` applies threshold `0.1`, `bufferSize 0` yields capacity
50, `prefetchInterval 0` yields the 5000 ms period, and
`maxCandidatesToEvaluate 0` evaluates up to 20 candidates — because each
default is selected by a JS truthiness test (`value || default`). -/
theorem C10_zero_config_like_absent :
    effMinScoreThreshold (some 0) = effMinScoreThreshold none ∧
    effMinScoreThreshold (some 0) = 1/10 ∧
    effBufferSize (some 0) = effBufferSize none ∧
    effBufferSize (some 0) = 50 ∧
    effPrefetchInterval (some 0) = effPrefetchInterval none ∧
    effPrefetchInterval (some 0) = 5000 ∧
    effMaxCandidates (some 0) = effMaxCandidates none ∧
    effMaxCandidates (some 0) = 20 ∧
    (initialDState ⟨some 0, false, none, none, none⟩).prefetchBuffer.maxSize = 50 := by
  norm_num [effMinScoreThreshold, effBufferSize, effPrefetchInterval,
    effMaxCandidates, jsOrQ, jsOrZ, initialDState]

/-- Concrete candidate list for the C3 witness. -/
def c3Cands : List ℕ := [5, 1, 9, 9, 2]

/-- Concrete admission predicate for the C3 witness (rejects `1`). -/
def c3Allowed : ℕ → Bool := fun c => c ≠ 1

/-- Concrete total for the C3 witness. -/
def c3Total : ℕ → ℚ := fun c => (c : ℚ)

/-- Witness for C3: the winner among `[5, 1, 9, 9, 2]` (with `1` denied and
threshold `1`) is the first `9`. -/
theorem C3_selectOptimalMessage_witness :
    selectOptimalPure c3Cands c3Allowed c3Total 1 = some 9 ∧
    (9 ∈ c3Cands ∧ c3Allowed 9 = true ∧ (1 : ℚ) ≤ c3Total 9 ∧
      (∀ c ∈ c3Cands, c3Allowed c = true → c3Total c ≤ c3Total 9) ∧
      ∃ l₁ l₂, c3Cands.filter c3Allowed = l₁ ++ 9 :: l₂ ∧
        ∀ x ∈ l₁, c3Total x < c3Total 9) :=
  ⟨by decide,
   (C3_selectOptimalMessage c3Cands c3Allowed c3Total 1).2.2 9 (by decide)⟩

end LLMQueue
